import Mathlib

/-!
Verification of the curl-command parser of the bruno repository
(packages/bruno-app/src/utils/curl/parse-curl-v2.js).

The parser is embedded shallowly: each source function becomes a Lean
definition of the same name.  The shell-quote tokenizer is an external
dependency of the source file; the embedding therefore starts from the token
list it produces (plain strings, glob operator objects, and the ampersand
operator object).  Code paths that raise a TypeError in JavaScript (reading a
property of undefined, calling a string method on an operator object) are
modelled with Except.error.
-/

namespace Curl

/-- JS truthiness of an optional string value: undefined and the empty string
are falsy, every other string is truthy. -/
def jsTruthy : Option String → Bool
  | none => false
  | some s => s ≠ ""

/-- Tokens produced by the shell-quote tokenizer: plain strings, glob operator
objects (op: glob with a pattern) and the bare ampersand operator object. -/
inductive Tok where
  | str (s : String)
  | glob (pattern : String)
  | amp
deriving DecidableEq

/-- JS string coercion of a token; operator objects coerce to
the string [object Object]. -/
def Tok.coerce : Tok → String
  | .str s => s
  | .glob _ => "[object Object]"
  | .amp => "[object Object]"

/-- JS truthiness of a token: operator objects are truthy, a string is truthy
iff it is nonempty. -/
def Tok.truthy : Tok → Bool
  | .str s => s ≠ ""
  | _ => true

/-- The basic credentials stored by setAuth. -/
structure BasicCreds where
  username : String
  password : String
deriving DecidableEq

/-- The auth descriptor stored by setAuth. -/
structure Auth where
  mode : String
  basic : BasicCreds
deriving DecidableEq

/-- A multipart form field produced by parseFormField. -/
structure FormField where
  name : String
  value : String
  type : String
  enabled : Bool
deriving DecidableEq

/-- The request record built by the parser.  Optional fields model JS object
properties that may be absent (undefined); headers starts as an empty object
and may be deleted by normalizeRequest. -/
structure Request where
  headers : Option (List (String × Option String)) := some []
  method : Option String := none
  url : Option String := none
  urlWithoutQuery : Option String := none
  data : Option String := none
  auth : Option Auth := none
  cookies : Option (List (String × String)) := none
  cookieString : Option String := none
  multipartUploads : Option (List FormField) := none
  query : Option (List (String × String)) := none
  insecure : Bool := false
  isDataRaw : Bool := false
  isDataBinary : Bool := false
  isQuery : Bool := false
deriving DecidableEq

/-- JS object property assignment on a string-keyed object, modelled as an
association list: an existing key is overwritten in place, a new key is
appended at the end (JS insertion order for non-numeric keys). -/
def setAssoc (l : List (String × Option String)) (k : String) (v : Option String) :
    List (String × Option String) :=
  match l with
  | [] => [(k, v)]
  | (k', v') :: t => if k' = k then (k, v) :: t else (k', v') :: setAssoc t k v

/-- JS object property read on the association-list model. -/
def lookupAssoc (l : List (String × Option String)) (k : String) : Option (Option String) :=
  match l with
  | [] => none
  | (k', v') :: t => if k' = k then some v' else lookupAssoc t k

/-- Split a character list at the first occurrence of the character c. -/
def splitFirstAux (c : Char) : List Char → Option (List Char × List Char)
  | [] => none
  | x :: xs => if x = c then some ([], xs) else (splitFirstAux c xs).map (fun p => (x :: p.1, p.2))

/-- Split a string at the first occurrence of the character c. -/
def splitFirst (c : Char) (s : String) : Option (String × String) :=
  (splitFirstAux c s.data).map (fun p => (⟨p.1⟩, ⟨p.2⟩))

/-- JS String.prototype.split with a single-character separator: splits at
every occurrence; the empty string yields one empty field. -/
def jsSplitAux (c : Char) : List Char → List (List Char)
  | [] => [[]]
  | x :: xs =>
    if x = c then [] :: jsSplitAux c xs
    else
      match jsSplitAux c xs with
      | [] => [[x]]
      | h :: t => (x :: h) :: t

/-- JS String.prototype.split with a single-character separator, on strings. -/
def jsSplit (c : Char) (s : String) : List String :=
  (jsSplitAux c s.data).map (fun l => ⟨l⟩)

/-- JS String.prototype.includes for a single character. -/
def jsIncludes (c : Char) (s : String) : Bool := s.data.contains c

/-- JS String.prototype.endsWith for a single character. -/
def jsEndsWithChar (c : Char) (s : String) : Bool := s.data.getLast? = some c

/-- JS String.prototype.toUpperCase, restricted to the ASCII fragment the
parser relies on. -/
def jsToUpperCase (s : String) : String := ⟨s.data.map Char.toUpper⟩

/-- JS String.prototype.toLowerCase, restricted to the ASCII fragment the
parser relies on. -/
def jsToLowerCase (s : String) : String := ⟨s.data.map Char.toLower⟩

/-- Models host detection of the Node legacy url.parse (external dependency):
a string has a truthy host exactly when it has the shape scheme://host...
with an alphabetic-led scheme and a nonempty host part. -/
def urlHasHost (s : String) : Bool :=
  match splitFirst ':' s with
  | none => false
  | some (scheme, rest) =>
    (match scheme.data with
     | [] => false
     | ch :: _ => ch.isAlpha) &&
    scheme.data.all (fun ch => ch.isAlpha || ch.isDigit || ch = '+' || ch = '-' || ch = '.') &&
    (match rest.data with
     | '/' :: '/' :: hostRest =>
       !(hostRest.takeWhile (fun ch => ch ≠ '/' && ch ≠ '?' && ch ≠ '#')).isEmpty
     | _ => false)

/-- The query-parameter pattern of isURLFragment: a nonempty run without an
equals sign, then an equals sign, then a run without an ampersand. -/
def fragmentPattern (s : String) : Bool :=
  match splitFirst '=' s with
  | none => false
  | some (before, after) => before ≠ "" && !(jsIncludes '&' after)

/-- The states of the argument state machine (value-expecting flag
categories). -/
inductive ArgState where
  | userAgent | header | data | json | user | method | cookie | form
deriving DecidableEq

/-- The FLAG_CATEGORIES table keys. -/
inductive FlagCat where
  | userAgent | header | data | json | user | method | cookie | form
  | dataRaw | dataBinary | head | compressed | insecure | query
deriving DecidableEq

/-- FLAG_CATEGORIES lookup: which category a flag string belongs to. -/
def flagCategory (s : String) : Option FlagCat :=
  if s = "-A" || s = "--user-agent" then some .userAgent
  else if s = "-H" || s = "--header" then some .header
  else if s = "-d" || s = "--data" || s = "--data-ascii" || s = "--data-urlencode" then some .data
  else if s = "--json" then some .json
  else if s = "-u" || s = "--user" then some .user
  else if s = "-X" || s = "--request" then some .method
  else if s = "-b" || s = "--cookie" then some .cookie
  else if s = "-F" || s = "--form" then some .form
  else if s = "--data-raw" then some .dataRaw
  else if s = "--data-binary" then some .dataBinary
  else if s = "-I" || s = "--head" then some .head
  else if s = "--compressed" then some .compressed
  else if s = "-k" || s = "--insecure" then some .insecure
  else if s = "-G" || s = "--get" then some .query
  else none

/-- setHeader splits the value with the regex colon-space-rest: the split
happens at the first colon-space that is followed by at least one character;
without such a match the whole string is the name and the value stays
undefined. -/
def headerSplitAux : List Char → Option (List Char × List Char)
  | [] => none
  | ':' :: ' ' :: c :: rest => some ([], c :: rest)
  | x :: xs => (headerSplitAux xs).map (fun p => (x :: p.1, p.2))

/-- setHeader: assign the split name/value pair into the headers object.
A non-string value raises a TypeError (value.split is not a function). -/
def setHeader (request : Request) (value : Tok) : Except String Request :=
  match value with
  | .str s =>
    match headerSplitAux s.data with
    | none =>
      .ok { request with headers := some (setAssoc (request.headers.getD []) s none) }
    | some (n, v) =>
      .ok { request with headers := some (setAssoc (request.headers.getD []) ⟨n⟩ (some ⟨v⟩)) }
  | _ => .error "TypeError: value.split is not a function"

/-- setUserAgent: assign the User-Agent header.  The JS code stores the raw
value; an operator object is recorded through its string coercion. -/
def setUserAgent (request : Request) (value : Tok) : Request :=
  { request with headers := some (setAssoc (request.headers.getD []) "User-Agent" (some value.coerce)) }

/-- setData: append to existing truthy data with an ampersand, otherwise
start the data with the value. -/
def setData (request : Request) (value : Tok) : Request :=
  { request with
      data := some (if jsTruthy request.data then request.data.getD "" ++ "&" ++ value.coerce
                    else value.coerce) }

/-- setJsonData: convert GET/HEAD to POST, set the Content-Type header to
application/json, and replace (not append) the data. -/
def setJsonData (request : Request) (value : Tok) : Request :=
  let request :=
    if request.method = some "GET" || request.method = some "HEAD" then
      { request with method := some "POST" }
    else request
  { request with
      headers := some (setAssoc (request.headers.getD []) "Content-Type" (some "application/json")),
      data := some value.coerce }

/-- First alternative of the parseFormField regex value group: an optional
at-sign, then a double-quoted run without inner double quotes, ending the
field. -/
def formQuotedAlt (l : List Char) : Option String :=
  match l with
  | '"' :: t =>
    match splitFirstAux '"' t with
    | some (inner, []) => some ⟨inner⟩
    | _ => none
  | '@' :: '"' :: t =>
    match splitFirstAux '"' t with
    | some (inner, []) => some ⟨inner⟩
    | _ => none
  | _ => none

/-- parseFormField: match the field against the anchored regex
name equals (quoted value, at-sign file path, or plain run without at-sign);
fields that do not match yield null and are skipped.  The file/text type is
decided by whether the whole field contains an at-sign. -/
def parseFormField (field : String) : Option FormField :=
  match splitFirst '=' field with
  | none => none
  | some (fieldName, rest) =>
    if fieldName = "" then none
    else
      let fieldValue : Option String :=
        match formQuotedAlt rest.data with
        | some inner => some inner
        | none =>
          match rest.data with
          | '@' :: tail => if tail.contains '@' then none else some ⟨tail⟩
          | _ => if rest.data.contains '@' then none else some rest
      match fieldValue with
      | none => none
      | some v =>
        some { name := fieldName, value := v,
               type := if jsIncludes '@' field then "file" else "text",
               enabled := true }

/-- setFormData: push the parsed field (when it parses) onto the multipart
uploads and force the method to POST.  A non-string value raises a TypeError
(field.match is not a function). -/
def setFormData (request : Request) (value : Tok) : Except String Request :=
  match value with
  | .str s =>
    let uploads := (parseFormField s).toList
    .ok { request with
            multipartUploads := some (request.multipartUploads.getD [] ++ uploads),
            method := some "POST" }
  | _ => .error "TypeError: field.match is not a function"

/-- setAuth: split the value on every colon; the username is the first field
and the password the second (both defaulting to the empty string under the
JS or-else).  Non-string values are ignored by the typeof guard. -/
def setAuth (request : Request) (value : Tok) : Request :=
  match value with
  | .str s =>
    let parts := jsSplit ':' s
    { request with
        auth := some { mode := "basic",
                       basic := { username := (parts[0]?).getD "",
                                  password := (parts[1]?).getD "" } } }
  | _ => request

/-- setMethod: uppercase the value.  A non-string value raises a TypeError
(value.toUpperCase is not a function). -/
def setMethod (request : Request) (value : Tok) : Except String Request :=
  match value with
  | .str s => .ok { request with method := some (jsToUpperCase s) }
  | _ => .error "TypeError: value.toUpperCase is not a function"

/-- Surrounding-space trim used by the cookie model. -/
def trimStr (s : String) : String :=
  ⟨((s.data.dropWhile (fun ch => ch = ' ')).reverse.dropWhile (fun ch => ch = ' ')).reverse⟩

/-- Models cookie.parse of the cookie npm package (external dependency):
semicolon-separated segments, each split at its first equals sign with
surrounding spaces trimmed; segments without an equals sign are skipped. -/
def cookieParse (s : String) : List (String × String) :=
  (jsSplit ';' s).filterMap (fun seg =>
    match splitFirst '=' seg with
    | none => none
    | some (k, v) => some (trimStr k, trimStr v))

/-- setCookie: record the parsed cookies, the raw cookie string, and the
Cookie header.  Non-string values are ignored by the typeof guard. -/
def setCookie (request : Request) (value : Tok) : Request :=
  match value with
  | .str s =>
    { request with
        cookies := some (cookieParse s),
        cookieString := some s,
        headers := some (setAssoc (request.headers.getD []) "Cookie" (some s)) }
  | _ => request

/-- isURL: a string argument whose Node url.parse host is truthy. -/
def isURL (arg : Tok) : Bool :=
  match arg with
  | .str s => urlHasHost s
  | _ => false

/-- isURLFragment: glob operator objects are tested through their pattern,
the ampersand operator object always counts, and strings are tested with the
query-parameter pattern. -/
def isURLFragment (arg : Tok) : Bool :=
  match arg with
  | .glob pattern => urlHasHost pattern
  | .amp => true
  | .str s => fragmentPattern s

/-- isURLOrFragment from the source. -/
def isURLOrFragment (arg : Tok) : Bool := isURL arg || isURLFragment arg

/-- getUrlString: strings stand for themselves, glob objects contribute their
pattern, the ampersand object contributes an ampersand. -/
def getUrlString : Tok → Option String
  | .str s => some s
  | .glob pattern => some pattern
  | .amp => some "&"

/-- updateUrlWithoutQuery: everything before the first question mark of a
truthy url. -/
def updateUrlWithoutQuery (request : Request) : Request :=
  if jsTruthy request.url then
    { request with
        urlWithoutQuery := some (match splitFirst '?' (request.url.getD "") with
          | none => request.url.getD ""
          | some p => p.1) }
  else request

/-- setURL: append the fragment to any truthy existing url, then refresh
urlWithoutQuery. -/
def setURL (request : Request) (url : Tok) : Request :=
  match getUrlString url with
  | none => request
  | some urlString =>
    updateUrlWithoutQuery
      { request with
          url := some (if jsTruthy request.url then request.url.getD "" ++ urlString
                       else urlString) }

/-- handleFlagCategory: value-expecting categories return their state;
immediate-action categories mutate the request and return no state. -/
def handleFlagCategory (category : FlagCat) (request : Request) : Option ArgState × Request :=
  match category with
  | .userAgent => (some .userAgent, request)
  | .header => (some .header, request)
  | .data => (some .data, request)
  | .json => (some .json, request)
  | .user => (some .user, request)
  | .method => (some .method, request)
  | .cookie => (some .cookie, request)
  | .form => (some .form, request)
  | .dataRaw => (some .data, { request with isDataRaw := true })
  | .dataBinary => (some .data, { request with isDataBinary := true })
  | .head => (none, { request with method := some "HEAD" })
  | .compressed =>
    let h := request.headers.getD []
    let cur : Option String :=
      match lookupAssoc h "Accept-Encoding" with
      | some (some v) => if v ≠ "" then some v else none
      | _ => none
    (none, { request with headers := some (setAssoc h "Accept-Encoding" (some (cur.getD "deflate, gzip"))) })
  | .insecure => (none, { request with insecure := true })
  | .query => (none, { request with isQuery := true })

/-- handleFlag: look the argument up in the flag table; operator objects and
unknown strings are not flags. -/
def handleFlag (arg : Tok) (request : Request) : Option ArgState × Request :=
  match arg with
  | .str s =>
    match flagCategory s with
    | some category => handleFlagCategory category request
    | none => (none, request)
  | _ => (none, request)

/-- handleValue: dispatch the value to the handler of the current state. -/
def handleValue (value : Tok) (state : ArgState) (request : Request) : Except String Request :=
  match state with
  | .header => setHeader request value
  | .userAgent => .ok (setUserAgent request value)
  | .data => .ok (setData request value)
  | .json => .ok (setJsonData request value)
  | .form => setFormData request value
  | .user => .ok (setAuth request value)
  | .method => setMethod request value
  | .cookie => .ok (setCookie request value)

/-- processArgument: flags win and set their state; otherwise a truthy
argument with a pending state is consumed as that state's value; otherwise,
with no pending state, URL-looking arguments extend the url.  The returned
state becomes the loop's current state. -/
def processArgument (arg : Tok) (currentState : Option ArgState) (request : Request) :
    Except String (Option ArgState × Request) :=
  match handleFlag arg request with
  | (some flagState, request) => .ok (some flagState, request)
  | (none, request) =>
    match currentState with
    | some state =>
      if arg.truthy then
        match handleValue arg state request with
        | .error e => .error e
        | .ok request => .ok (none, request)
      else .ok (none, request)
    | none =>
      if isURLOrFragment arg then .ok (none, setURL request arg)
      else .ok (none, request)

/-- The loop of buildRequest: process the arguments in order, threading the
state-machine state through. -/
def foldSteps : List Tok → Option ArgState → Request → Except String (Option ArgState × Request)
  | [], currentState, request => .ok (currentState, request)
  | arg :: rest, currentState, request =>
    match processArgument arg currentState request with
    | .error e => .error e
    | .ok (newState, request) => foldSteps rest newState request

/-- The initial request of buildRequest: an empty headers object. -/
def initRequest : Request := {}

/-- buildRequest: run the state machine from the initial request. -/
def buildRequest (parsedArgs : List Tok) : Except String Request :=
  match foldSteps parsedArgs none initRequest with
  | .error e => .error e
  | .ok (_, request) => .ok request

/-- The parse result of the Node legacy url.parse as used by
convertDataToQueryString: the part before the first question mark, and the
query after it. -/
structure ParsedUrl where
  base : String
  query : Option String
deriving DecidableEq

/-- Models Node legacy url.parse restricted to what
convertDataToQueryString reads (external dependency; hash fragments are not
modelled). -/
def urlParse (s : String) : ParsedUrl :=
  match splitFirst '?' s with
  | none => { base := s, query := none }
  | some p => { base := p.1, query := some p.2 }

/-- Models Node url.format on the parse result (external dependency). -/
def urlFormat (u : ParsedUrl) : String :=
  match u.query with
  | none => u.base
  | some q => u.base ++ "?" ++ q

/-- Models the query-string package parse with sort disabled (external
dependency): ampersand-separated segments in order, empty segments skipped,
each split at its first equals sign; a segment without an equals sign maps to
a null value.  Percent-decoding is not modelled. -/
def qsParse : Option String → List (String × Option String)
  | none => []
  | some q =>
    (jsSplit '&' q).filterMap (fun seg =>
      if seg = "" then none
      else
        match splitFirst '=' seg with
        | none => some (seg, none)
        | some p => some (p.1, some p.2))

/-- convertDataToQueryString: append the data to the url query string (adding
a question mark or ampersand separator), reparse the url, and store the
parsed query with null values replaced by empty strings.  Reading indexOf of
an undefined url raises a TypeError. -/
def convertDataToQueryString (request : Request) : Except String Request :=
  match request.url with
  | none => .error "TypeError: Cannot read properties of undefined (reading indexOf)"
  | some u =>
    let url := if !(jsIncludes '?' u) then u ++ "?"
               else if !(jsEndsWithChar '&' u) then u ++ "&"
               else u
    let url := url ++ (match request.data with | none => "undefined" | some d => d)
    let parsedUrl := urlParse url
    let query := (qsParse parsedUrl.query).map (fun p => (p.1, p.2.getD ""))
    .ok { request with url := some (urlFormat parsedUrl), query := some query }

/-- postBuildProcessRequest: with the query flag and truthy data, move the
data into the query string and drop the data and query marker; otherwise
truthy data forces POST unless a method other than HEAD is set; finally a
falsy method defaults to GET. -/
def postBuildProcessRequest (request : Request) : Except String Request :=
  match (if request.isQuery && jsTruthy request.data then
           match convertDataToQueryString request with
           | .error e => .error e
           | .ok request => .ok { request with data := none, isQuery := false }
         else if jsTruthy request.data then
           .ok (if !(jsTruthy request.method) || request.method = some "HEAD" then
                  { request with method := some "POST" }
                else request)
         else .ok request : Except String Request) with
  | .error e => .error e
  | .ok request =>
    .ok (if !(jsTruthy request.method) then { request with method := some "GET" } else request)

/-- The lodash isEmpty test on the headers object. -/
def isEmptyHeaders : Option (List (String × Option String)) → Bool
  | none => true
  | some l => l.isEmpty

/-- normalizeRequest: lowercase the method (a TypeError when it is undefined)
and delete an empty headers object. -/
def normalizeRequest (request : Request) : Except String Request :=
  match request.method with
  | none => .error "TypeError: Cannot read properties of undefined (reading toLowerCase)"
  | some m =>
    .ok { request with
            method := some (jsToLowerCase m),
            headers := if isEmptyHeaders request.headers then none else request.headers }

/-- parseCurlCommand from the token list onward: the cleanCurlCommand string
preprocessing and the external shell-quote tokenizer produce the token list;
the embedded pipeline is buildRequest, then postBuildProcessRequest, then
normalizeRequest. -/
def parseCurlCommand (parsedArgs : List Tok) : Except String Request :=
  match buildRequest parsedArgs with
  | .error e => .error e
  | .ok request =>
    match postBuildProcessRequest request with
    | .error e => .error e
    | .ok request => normalizeRequest request

/-- Ampersand-joined concatenation of a list of strings. -/
def joinAmp : List String → String
  | [] => ""
  | [v] => v
  | v :: rest => v ++ "&" ++ joinAmp rest

end Curl

namespace Curl

/-! ## Claim C1 -/

/-- C1 counterexample: the claim says parseCurlCommand raises no exception in
particular when -G and -d data are given without any URL; on the tokens of
the command curl -G -d a=b the code raises a TypeError, because
convertDataToQueryString reads indexOf of the undefined url. -/
theorem c1_counterexample :
    parseCurlCommand [.str "curl", .str "-G", .str "-d", .str "a=b"]
      = .error "TypeError: Cannot read properties of undefined (reading indexOf)" := rfl

end Curl

namespace Curl

/-! ## Helper lemmas on the pipeline stages -/

/-- On a plain string value every state handler returns normally. -/
theorem handleValue_str_ok (s : String) (st : ArgState) (r : Request) :
    ∃ r', handleValue (.str s) st r = .ok r' := by
  cases st <;>
    simp only [handleValue, setHeader, setFormData, setMethod] <;>
    first
      | exact ⟨_, rfl⟩
      | (rcases h : headerSplitAux s.data with _ | ⟨n, v⟩ <;> exact ⟨_, rfl⟩)

/-- On a plain string token processArgument returns normally. -/
theorem processArgument_str_ok (s : String) (cs : Option ArgState) (r : Request) :
    ∃ p, processArgument (.str s) cs r = .ok p := by
  rcases h : handleFlag (.str s) r with ⟨_ | st, r'⟩
  · rcases cs with _ | st'
    · by_cases hu : isURLOrFragment (.str s) = true <;>
        simp [processArgument, h, hu]
    · by_cases ht : (Tok.str s).truthy = true
      · obtain ⟨r'', hr⟩ := handleValue_str_ok s st' r'
        simp [processArgument, h, ht, hr]
      · simp only [Bool.not_eq_true] at ht
        simp [processArgument, h, ht]
  · simp [processArgument, h]

/-- On a list of plain string tokens the state-machine loop returns
normally. -/
theorem foldSteps_str_ok (toks : List Tok) :
    ∀ (cs : Option ArgState) (r : Request), (∀ t ∈ toks, ∃ s, t = Tok.str s) →
      ∃ p, foldSteps toks cs r = .ok p := by
  induction toks with
  | nil => exact fun cs r _ => ⟨_, rfl⟩
  | cons t rest ih =>
    intro cs r htoks
    obtain ⟨s, rfl⟩ := htoks t (by simp)
    obtain ⟨⟨ns, r'⟩, hp⟩ := processArgument_str_ok s cs r
    obtain ⟨p, hf⟩ := ih ns r' (fun t ht => htoks t (by simp [ht]))
    exact ⟨p, by simp [foldSteps, hp, hf]⟩

/-- convertDataToQueryString returns normally exactly on a defined url. -/
theorem convert_ok (r : Request) (u : String) (h : r.url = some u) :
    ∃ r', convertDataToQueryString r = .ok r' := by
  simp [convertDataToQueryString, h]

/-- convertDataToQueryString raises the TypeError on an undefined url. -/
theorem convert_err (r : Request) (h : r.url = none) :
    convertDataToQueryString r =
      .error "TypeError: Cannot read properties of undefined (reading indexOf)" := by
  simp [convertDataToQueryString, h]

/-- An error of convertDataToQueryString forces an undefined url. -/
theorem convert_err_inv (r : Request) (e : String)
    (h : convertDataToQueryString r = .error e) : r.url = none := by
  rcases hu : r.url with _ | u
  · rfl
  · simp [convertDataToQueryString, hu] at h

/-- postBuildProcessRequest raises the TypeError exactly in the
query-flag-with-data-but-no-url configuration. -/
theorem postBuild_err (r : Request) (hq : r.isQuery = true) (hd : jsTruthy r.data = true)
    (hu : r.url = none) :
    postBuildProcessRequest r =
      .error "TypeError: Cannot read properties of undefined (reading indexOf)" := by
  simp [postBuildProcessRequest, hq, hd, convert_err r hu]

/-- postBuildProcessRequest returns normally when the error configuration is
avoided. -/
theorem postBuild_ok (r : Request)
    (h : ¬(r.isQuery = true ∧ jsTruthy r.data = true ∧ r.url = none)) :
    ∃ r', postBuildProcessRequest r = .ok r' := by
  rcases hres : postBuildProcessRequest r with e | r'
  · exfalso
    unfold postBuildProcessRequest at hres
    split at hres
    · rename_i req heq
      split at heq
      · rename_i hc
        split at heq
        · rename_i e' hconv
          rw [Bool.and_eq_true] at hc
          exact h ⟨hc.1, hc.2, convert_err_inv r e' (by simpa using hconv)⟩
        · exact Except.noConfusion heq
      · split at heq
        · exact Except.noConfusion heq
        · exact Except.noConfusion heq
    · rename_i req heq
      exact Except.noConfusion hres
  · exact ⟨r', rfl⟩

/-- After postBuildProcessRequest the method is always defined. -/
theorem postBuild_method (r r' : Request) (h : postBuildProcessRequest r = .ok r') :
    ∃ m, r'.method = some m := by
  unfold postBuildProcessRequest at h
  split at h
  · exact absurd h (by simp)
  · rename_i req hr
    by_cases hm : jsTruthy req.method = true
    · rcases hmm : req.method with _ | m
      · rw [hmm] at hm; exact absurd hm (by simp [jsTruthy])
      · simp only [hm, Bool.not_true, Bool.false_eq_true, if_false] at h
        cases h
        exact ⟨m, hmm⟩
    · simp only [Bool.not_eq_true] at hm
      simp only [hm, Bool.not_false, if_true] at h
      cases h
      exact ⟨"GET", rfl⟩

/-- normalizeRequest returns normally on a defined method. -/
theorem normalize_ok (r : Request) (m : String) (h : r.method = some m) :
    normalizeRequest r =
      .ok { r with method := some (jsToLowerCase m),
                   headers := if isEmptyHeaders r.headers then none else r.headers } := by
  simp [normalizeRequest, h]

end Curl

namespace Curl

/-- C1 amended: on plain string tokens the parser always terminates; it
returns a request normally except exactly when the query flag is set with
truthy data and no url, where the TypeError from convertDataToQueryString is
raised.  (The claim as stated, including the case of -G and -d without URL returning
normally, is refuted by the counterexample.) -/
theorem c1_amended (toks : List Tok) (hstr : ∀ t ∈ toks, ∃ s, t = Tok.str s) :
    ∃ r, buildRequest toks = .ok r ∧
      ((r.isQuery = true ∧ jsTruthy r.data = true ∧ r.url = none) →
        parseCurlCommand toks =
          .error "TypeError: Cannot read properties of undefined (reading indexOf)") ∧
      (¬(r.isQuery = true ∧ jsTruthy r.data = true ∧ r.url = none) →
        ∃ r', parseCurlCommand toks = .ok r') := by
  obtain ⟨⟨st, r⟩, hf⟩ := foldSteps_str_ok toks none initRequest hstr
  have hb : buildRequest toks = .ok r := by simp [buildRequest, hf]
  refine ⟨r, hb, fun hc => ?_, fun hc => ?_⟩
  · simp [parseCurlCommand, hb, postBuild_err r hc.1 hc.2.1 hc.2.2]
  · obtain ⟨r', hp⟩ := postBuild_ok r hc
    obtain ⟨m, hm⟩ := postBuild_method r r' hp
    exact ⟨{ r' with method := some (jsToLowerCase m),
                     headers := if isEmptyHeaders r'.headers then none else r'.headers },
      by simp only [parseCurlCommand, hb, hp]; exact normalize_ok r' m hm⟩

/-- C1 witness: the amended theorem applied to the tokens of
curl http://example.com, whose non-error branch yields a request. -/
theorem c1_witness :
    ∃ r, buildRequest [Tok.str "curl", Tok.str "http://example.com"] = .ok r ∧
      ((r.isQuery = true ∧ jsTruthy r.data = true ∧ r.url = none) →
        parseCurlCommand [Tok.str "curl", Tok.str "http://example.com"] =
          .error "TypeError: Cannot read properties of undefined (reading indexOf)") ∧
      (¬(r.isQuery = true ∧ jsTruthy r.data = true ∧ r.url = none) →
        ∃ r', parseCurlCommand [Tok.str "curl", Tok.str "http://example.com"] = .ok r') :=
  c1_amended [Tok.str "curl", Tok.str "http://example.com"]
    (by intro t ht; simp only [List.mem_cons, List.mem_singleton] at ht
        rcases ht with h | h | h <;> first | exact ⟨_, h⟩ | cases h)

end Curl

namespace Curl

/-- A successful parse decomposes into successful pipeline stages. -/
theorem parse_ok_decomp (toks : List Tok) (r : Request) (h : parseCurlCommand toks = .ok r) :
    ∃ r₁ r₂, buildRequest toks = .ok r₁ ∧ postBuildProcessRequest r₁ = .ok r₂ ∧
      normalizeRequest r₂ = .ok r := by
  unfold parseCurlCommand at h
  split at h
  · exact Except.noConfusion h
  · rename_i r₁ h₁
    split at h
    · exact Except.noConfusion h
    · rename_i r₂ h₂
      exact ⟨r₁, r₂, h₁, h₂, h⟩

/-- A successful normalizeRequest comes from a defined method and lowercases
it, deleting empty headers. -/
theorem normalize_ok_inv (r₂ r : Request) (h : normalizeRequest r₂ = .ok r) :
    ∃ m, r₂.method = some m ∧
      r = { r₂ with method := some (jsToLowerCase m),
                    headers := if isEmptyHeaders r₂.headers then none else r₂.headers } := by
  unfold normalizeRequest at h
  split at h
  · exact Except.noConfusion h
  · rename_i m hm
    cases h
    exact ⟨m, hm, rfl⟩

/-- The toNat of Char.ofNat at a valid code point. -/
theorem char_toNat_ofNat (n : Nat) (h : n.isValidChar) : (Char.ofNat n).toNat = n := by
  unfold Char.ofNat
  rw [dif_pos h]
  exact rfl

/-- Char.toLower never returns an uppercase letter. -/
theorem char_isUpper_toLower (c : Char) : (Char.toLower c).isUpper = false := by
  unfold Char.toLower
  show (if c.toNat ≥ 65 ∧ c.toNat ≤ 90 then Char.ofNat (c.toNat + 32) else c).isUpper = false
  by_cases h : c.toNat ≥ 65 ∧ c.toNat ≤ 90
  · rw [if_pos h]
    have hv : (c.toNat + 32).isValidChar := by
      left
      have := h.2
      omega
    have hval : (Char.ofNat (c.toNat + 32)).toNat = c.toNat + 32 := char_toNat_ofNat _ hv
    simp only [Char.isUpper]
    have h1 : ¬((Char.ofNat (c.toNat + 32)).val ≤ 90) := by
      intro hle
      have h2 : (Char.ofNat (c.toNat + 32)).val.toNat ≤ (90 : UInt32).toNat := hle
      have h3 : (Char.ofNat (c.toNat + 32)).toNat ≤ 90 := h2
      omega
    simp [h1]
  · rw [if_neg h]
    simp only [Char.isUpper]
    by_cases h65 : 65 ≤ c.toNat
    · have h90 : ¬(c.toNat ≤ 90) := fun hle => h ⟨h65, hle⟩
      have hn : ¬(c.val ≤ (90 : UInt32)) := fun hle => h90 hle
      simp [hn]
    · have hn : ¬((65 : UInt32) ≤ c.val) := fun hle => h65 hle
      simp [hn]

/-! ## Claim C2 -/

/-- C2 counterexample: the claim says a headers mapping is part of the
returned record even for a command that sets no headers, such as a bare
curl http://example.com; the code deletes the empty headers object in
normalizeRequest, so the returned record has no headers field (headers is
none). -/
theorem c2_counterexample :
    parseCurlCommand [.str "curl", .str "http://example.com"] =
      .ok { headers := none, method := some "get", url := some "http://example.com",
            urlWithoutQuery := some "http://example.com" } := rfl

/-- C2 amended: the returned value is a flat record whose method field is
always defined; the headers mapping, however, is deleted when empty, so the
result never carries an empty headers mapping. -/
theorem c2_theorem (toks : List Tok) (r : Request) (h : parseCurlCommand toks = .ok r) :
    (∃ m, r.method = some m) ∧ r.headers ≠ some [] := by
  obtain ⟨r₁, r₂, h₁, h₂, h₃⟩ := parse_ok_decomp toks r h
  obtain ⟨m, hm, rfl⟩ := normalize_ok_inv r₂ _ h₃
  refine ⟨⟨jsToLowerCase m, rfl⟩, ?_⟩
  show (if isEmptyHeaders r₂.headers then none else r₂.headers) ≠ some []
  by_cases he : isEmptyHeaders r₂.headers = true
  · simp [he]
  · simp only [Bool.not_eq_true] at he
    simp only [he, Bool.false_eq_true, if_false]
    intro hcontra
    rw [hcontra] at he
    simp [isEmptyHeaders] at he

/-- C2 witness: the amended theorem applied to the bare
curl http://example.com command. -/
theorem c2_witness :
    (∃ m, ({ headers := none, method := some "get", url := some "http://example.com",
             urlWithoutQuery := some "http://example.com" } : Request).method = some m) ∧
    ({ headers := none, method := some "get", url := some "http://example.com",
       urlWithoutQuery := some "http://example.com" } : Request).headers ≠ some [] :=
  c2_theorem [.str "curl", .str "http://example.com"] _ rfl

/-! ## Claim C3 -/

/-- C3: the parser is a pure function of its input: equal inputs give equal
outputs (the embedding is a total function with no state and no effects,
mirroring the source, which mutates only its local request object). -/
theorem c3_theorem (t₁ t₂ : List Tok) (h : t₁ = t₂) :
    parseCurlCommand t₁ = parseCurlCommand t₂ := by rw [h]

/-- C3 witness: two runs on the tokens of curl http://example.com. -/
theorem c3_witness :
    parseCurlCommand [.str "curl", .str "http://example.com"] =
      parseCurlCommand [.str "curl", .str "http://example.com"] :=
  c3_theorem [.str "curl", .str "http://example.com"] [.str "curl", .str "http://example.com"] rfl

/-! ## Claim C9 -/

/-- C9: every request returned by parseCurlCommand has a defined method
containing no uppercase character, whatever the casing of the method flag
value or of the internally set HEAD, POST and GET. -/
theorem c9_theorem (toks : List Tok) (r : Request) (h : parseCurlCommand toks = .ok r) :
    ∃ m, r.method = some m ∧ ∀ c ∈ m.data, c.isUpper = false := by
  obtain ⟨r₁, r₂, h₁, h₂, h₃⟩ := parse_ok_decomp toks r h
  obtain ⟨m, hm, rfl⟩ := normalize_ok_inv r₂ _ h₃
  refine ⟨jsToLowerCase m, rfl, ?_⟩
  intro c hc
  simp only [jsToLowerCase, List.mem_map] at hc
  obtain ⟨c₀, _, rfl⟩ := hc
  exact char_isUpper_toLower c₀

/-- C9 witness: the theorem applied to curl -X PuT http://example.com, whose
returned method is the lowercase put. -/
theorem c9_witness :
    ∃ m, ({ headers := none, method := some "put", url := some "http://example.com",
            urlWithoutQuery := some "http://example.com" } : Request).method = some m ∧
      ∀ c ∈ m.data, c.isUpper = false :=
  c9_theorem [.str "-X", .str "PuT", .str "http://example.com"] _ rfl

end Curl

namespace Curl

/-! ## Claim C4 -/

/-- Whether a token is one of the known flag strings. -/
def isFlagTok : Tok → Bool
  | .str s => (flagCategory s).isSome
  | _ => false

/-- The state a value-expecting flag category puts the machine into; the
immediate-action categories expect no value. -/
def valueCatState : FlagCat → Option ArgState
  | .userAgent => some .userAgent
  | .header => some .header
  | .data => some .data
  | .json => some .json
  | .user => some .user
  | .method => some .method
  | .cookie => some .cookie
  | .form => some .form
  | .dataRaw => some .data
  | .dataBinary => some .data
  | .head => none
  | .compressed => none
  | .insecure => none
  | .query => none

/-- C4 counterexample: with the header state pending, the next non-flag token
is the empty string; the claim says it is consumed as the header value, but
the code's truthiness guard skips it and merely resets the state, leaving the
request unchanged, while consuming it would have produced a different
request. -/
theorem c4_counterexample :
    foldSteps [Tok.str ""] (some ArgState.header) initRequest = .ok (none, initRequest) ∧
    handleValue (Tok.str "") ArgState.header initRequest =
      .ok { initRequest with headers := some [("", none)] } ∧
    ({ initRequest with headers := some [("", none)] } : Request) ≠ initRequest := by
  refine ⟨rfl, rfl, by decide⟩

/-- C4 amended: buildRequest is a single left-to-right pass (its loop
processes the head token and recurses on the tail with the returned state); a
value-expecting flag token sets the parsing state whatever the previous state
was; a truthy non-flag token arriving in a state is consumed as that state's
value and the state is reset to null, so a single flag never consumes more
than one following token; an empty-string token is skipped by the truthiness
guard and only resets the state. -/
theorem c4_theorem :
    (∀ (t : Tok) (ts : List Tok) (s : Option ArgState) (r : Request),
        foldSteps (t :: ts) s r =
          match processArgument t s r with
          | .error e => .error e
          | .ok (s', r') => foldSteps ts s' r') ∧
    (∀ (f : String) (cat : FlagCat) (st : ArgState) (cs : Option ArgState) (r : Request),
        flagCategory f = some cat → valueCatState cat = some st →
        ∃ r', processArgument (.str f) cs r = .ok (some st, r')) ∧
    (∀ (t : Tok) (st : ArgState) (r : Request),
        isFlagTok t = false → t.truthy = true →
        processArgument t (some st) r =
          (handleValue t st r).map (fun r' => ((none : Option ArgState), r'))) ∧
    (∀ (st : ArgState) (r : Request),
        processArgument (.str "") (some st) r = .ok (none, r)) := by
  refine ⟨fun t ts s r => rfl, ?_, ?_, fun st r => rfl⟩
  · intro f cat st cs r hf hst
    cases cat <;> simp only [valueCatState, Option.some.injEq, reduceCtorEq] at hst <;>
      try subst hst
    all_goals simp [processArgument, handleFlag, hf, handleFlagCategory]
  · intro t st r hflag ht
    have hfl : handleFlag t r = (none, r) := by
      cases t with
      | str s =>
        rcases hcat : flagCategory s with _ | c
        · simp [handleFlag, hcat]
        · rw [isFlagTok] at hflag
          rw [hcat] at hflag
          exact absurd hflag (by simp)
      | glob p => rfl
      | amp => rfl
    rcases hv : handleValue t st r with e | r' <;>
      simp [processArgument, hfl, ht, hv, Except.map]

/-- C4 witness: the amended theorem at concrete inputs: the -H flag sets the
header state, the token a colon-space b is consumed as the header value with
the state reset, and the empty token only resets the state. -/
theorem c4_witness :
    (∃ r', processArgument (Tok.str "-H") none initRequest = .ok (some ArgState.header, r')) ∧
    processArgument (Tok.str "a: b") (some ArgState.header) initRequest =
      (handleValue (Tok.str "a: b") ArgState.header initRequest).map
        (fun r' => ((none : Option ArgState), r')) ∧
    processArgument (Tok.str "") (some ArgState.header) initRequest = .ok (none, initRequest) :=
  ⟨c4_theorem.2.1 "-H" FlagCat.header ArgState.header none initRequest rfl rfl,
   c4_theorem.2.2.1 (Tok.str "a: b") ArgState.header initRequest rfl rfl,
   c4_theorem.2.2.2 ArgState.header initRequest⟩

/-! ## Claim C8 -/

/-- C8 counterexample: the claim says an explicitly -X-set method is never
overridden by the presence of data; for curl -X HEAD -d x the explicitly set
HEAD is overridden to POST by postBuildProcessRequest, which cannot
distinguish it from the -I form. -/
theorem c8_counterexample :
    parseCurlCommand [.str "-X", .str "HEAD", .str "-d", .str "x"] =
      .ok { headers := none, method := some "post", data := some "x" } := rfl

/-- C8 amended: in the absence of the query flag, a request with no method
and no data gets method get; truthy data forces post when the method is unset
or HEAD (whether HEAD came from -I or from -X HEAD); an explicitly set
nonempty method other than HEAD is preserved (lowercased) in the presence of
data. -/
theorem c8_theorem (toks : List Tok) (r : Request) (hb : buildRequest toks = .ok r)
    (hq : r.isQuery = false) :
    ((r.method = none ∧ r.data = none) →
      ∃ r', parseCurlCommand toks = .ok r' ∧ r'.method = some "get") ∧
    ((jsTruthy r.data = true ∧ (r.method = none ∨ r.method = some "HEAD")) →
      ∃ r', parseCurlCommand toks = .ok r' ∧ r'.method = some "post") ∧
    (∀ M, r.method = some M → M ≠ "HEAD" → M ≠ "" → jsTruthy r.data = true →
      ∃ r', parseCurlCommand toks = .ok r' ∧ r'.method = some (jsToLowerCase M)) := by
  refine ⟨?_, ?_, ?_⟩
  · rintro ⟨hm, hd⟩
    have hpost : postBuildProcessRequest r = .ok { r with method := some "GET" } := by
      simp [postBuildProcessRequest, hq, hd, hm, jsTruthy]
    have hn := normalize_ok { r with method := some "GET" } "GET" rfl
    exact ⟨_, by simp only [parseCurlCommand, hb, hpost]; exact hn, rfl⟩
  · rintro ⟨hd, hm⟩
    have hcond : (!(jsTruthy r.method) || r.method = some "HEAD") = true := by
      rcases hm with hm | hm <;> simp [hm, jsTruthy]
    have hpost : postBuildProcessRequest r = .ok { r with method := some "POST" } := by
      simp only [postBuildProcessRequest, hq, Bool.false_and, Bool.false_eq_true, if_false, hd,
        if_true, hcond, decide_eq_true_eq]
      simp [jsTruthy]
    have hn := normalize_ok { r with method := some "POST" } "POST" rfl
    exact ⟨_, by simp only [parseCurlCommand, hb, hpost]; exact hn, rfl⟩
  · intro M hM hMh hM0 hd
    have hcond : (!(jsTruthy r.method) || r.method = some "HEAD") = false := by
      simp [hM, jsTruthy, hM0, hMh]
    have hpost : postBuildProcessRequest r = .ok r := by
      simp only [postBuildProcessRequest, hq, Bool.false_and, Bool.false_eq_true, if_false, hd,
        if_true, hcond, decide_eq_true_eq]
      simp [hM, jsTruthy, hM0]
    have hn := normalize_ok r M hM
    exact ⟨_, by simp only [parseCurlCommand, hb, hpost]; exact hn, rfl⟩

/-- C8 witness: the amended theorem at three concrete commands: a bare curl
defaults to get; curl -I -d x gives post; curl -X PUT -d x keeps put. -/
theorem c8_witness :
    (∃ r', parseCurlCommand ([] : List Tok) = .ok r' ∧ r'.method = some "get") ∧
    (∃ r', parseCurlCommand [.str "-I", .str "-d", .str "x"] = .ok r' ∧
      r'.method = some "post") ∧
    (∃ r', parseCurlCommand [.str "-X", .str "PUT", .str "-d", .str "x"] = .ok r' ∧
      r'.method = some (jsToLowerCase "PUT")) :=
  ⟨(c8_theorem [] initRequest rfl rfl).1 ⟨rfl, rfl⟩,
   (c8_theorem [.str "-I", .str "-d", .str "x"]
      { method := some "HEAD", data := some "x" } rfl rfl).2.1 ⟨rfl, Or.inr rfl⟩,
   (c8_theorem [.str "-X", .str "PUT", .str "-d", .str "x"]
      { method := some "PUT", data := some "x" } rfl rfl).2.2 "PUT" rfl
      (by decide) (by decide) rfl⟩

end Curl

namespace Curl

/-! ## Fold invariant machinery -/

/-- foldSteps distributes over list append. -/
theorem foldSteps_append (as bs : List Tok) (s : Option ArgState) (r : Request) :
    foldSteps (as ++ bs) s r =
      match foldSteps as s r with
      | .error e => .error e
      | .ok (s', r') => foldSteps bs s' r' := by
  induction as generalizing s r with
  | nil => rfl
  | cons t ts ih =>
    rcases h : processArgument t s r with e | ⟨s₁, r₁⟩
    · simp only [List.cons_append, foldSteps, h]
    · simp only [List.cons_append, foldSteps, h]
      exact ih s₁ r₁

/-- An invariant preserved by every processArgument step on good tokens is
preserved by the whole loop. -/
theorem foldSteps_inv (Inv : Option ArgState → Request → Prop) (Good : Tok → Prop)
    (hstep : ∀ s r t s' r', Good t → Inv s r → processArgument t s r = .ok (s', r') →
      Inv s' r')
    (toks : List Tok) : ∀ (s : Option ArgState) (r : Request) (s' : Option ArgState)
      (r' : Request), (∀ t ∈ toks, Good t) → Inv s r →
      foldSteps toks s r = .ok (s', r') → Inv s' r' := by
  induction toks with
  | nil =>
    intro s r s' r' _ hinv h
    simp only [foldSteps, Except.ok.injEq, Prod.mk.injEq] at h
    obtain ⟨h1, h2⟩ := h
    subst h1
    subst h2
    exact hinv
  | cons t ts ih =>
    intro s r s' r' hg hinv h
    rcases hp : processArgument t s r with e | ⟨s₁, r₁⟩
    · rw [foldSteps, hp] at h
      exact Except.noConfusion h
    · rw [foldSteps, hp] at h
      exact ih s₁ r₁ s' r' (fun t ht => hg t (List.mem_cons_of_mem _ ht))
        (hstep s r t s₁ r₁ (hg t (List.mem_cons_self _ _)) hinv hp) h

/-- handleFlagCategory returns exactly the state of the category's
value-expectation. -/
theorem handleFlagCategory_state (cat : FlagCat) (r : Request) :
    (handleFlagCategory cat r).1 = valueCatState cat := by cases cat <;> rfl

/-- No flag category touches the auth descriptor. -/
theorem handleFlagCategory_auth (cat : FlagCat) (r : Request) :
    (handleFlagCategory cat r).2.auth = r.auth := by cases cat <;> rfl

/-- No flag category touches the data. -/
theorem handleFlagCategory_data (cat : FlagCat) (r : Request) :
    (handleFlagCategory cat r).2.data = r.data := by cases cat <;> rfl

/-- Every flag category except head leaves the method unchanged. -/
theorem handleFlagCategory_method (cat : FlagCat) (r : Request) (h : cat ≠ FlagCat.head) :
    (handleFlagCategory cat r).2.method = r.method := by
  cases cat <;> first | rfl | exact absurd rfl h

/-- updateUrlWithoutQuery changes only the urlWithoutQuery field. -/
theorem updateUrlWithoutQuery_fields (r : Request) :
    (updateUrlWithoutQuery r).auth = r.auth ∧ (updateUrlWithoutQuery r).method = r.method ∧
      (updateUrlWithoutQuery r).data = r.data := by
  unfold updateUrlWithoutQuery
  split <;> exact ⟨rfl, rfl, rfl⟩

/-- setURL changes only the url and urlWithoutQuery fields. -/
theorem setURL_fields (r : Request) (t : Tok) :
    (setURL r t).auth = r.auth ∧ (setURL r t).method = r.method ∧
      (setURL r t).data = r.data := by
  unfold setURL
  split
  · exact ⟨rfl, rfl, rfl⟩
  · exact ⟨(updateUrlWithoutQuery_fields _).1, (updateUrlWithoutQuery_fields _).2.1,
      (updateUrlWithoutQuery_fields _).2.2⟩

/-- A value handler other than the user state leaves the auth descriptor
unchanged. -/
theorem handleValue_auth (t : Tok) (st : ArgState) (r r' : Request)
    (hst : st ≠ ArgState.user) (h : handleValue t st r = .ok r') : r'.auth = r.auth := by
  cases st <;> cases t <;>
    simp only [handleValue, setHeader, setUserAgent, setData, setJsonData, setFormData,
      setAuth, setMethod, setCookie] at h <;>
    first
      | exact absurd rfl hst
      | exact Except.noConfusion h
      | (cases h; rfl)
      | (cases h; split <;> rfl)
      | (split at h <;> (cases h; rfl))

/-- A value handler outside the method, json and form states leaves the
method unchanged. -/
theorem handleValue_method (t : Tok) (st : ArgState) (r r' : Request)
    (h1 : st ≠ ArgState.method) (h2 : st ≠ ArgState.json) (h3 : st ≠ ArgState.form)
    (h : handleValue t st r = .ok r') : r'.method = r.method := by
  cases st <;> cases t <;>
    simp only [handleValue, setHeader, setUserAgent, setData, setJsonData, setFormData,
      setAuth, setMethod, setCookie] at h <;>
    first
      | exact absurd rfl h1
      | exact absurd rfl h2
      | exact absurd rfl h3
      | exact Except.noConfusion h
      | (cases h; rfl)
      | (split at h <;> (cases h; rfl))

/-- A value handler outside the data and json states leaves the data
unchanged. -/
theorem handleValue_data (t : Tok) (st : ArgState) (r r' : Request)
    (h1 : st ≠ ArgState.data) (h2 : st ≠ ArgState.json)
    (h : handleValue t st r = .ok r') : r'.data = r.data := by
  cases st <;> cases t <;>
    simp only [handleValue, setHeader, setUserAgent, setData, setJsonData, setFormData,
      setAuth, setMethod, setCookie] at h <;>
    first
      | exact absurd rfl h1
      | exact absurd rfl h2
      | exact Except.noConfusion h
      | (cases h; rfl)
      | (split at h <;> (cases h; rfl))

end Curl

namespace Curl

/-- Good tokens for a category predicate: a token is good when it is not a
flag of a bad category. -/
def GoodTok (GoodCat : FlagCat → Prop) : Tok → Prop
  | .str s => ∀ cat, flagCategory s = some cat → GoodCat cat
  | _ => True

/-- Preservation through the no-state branch of processArgument (URL
detection). -/
theorem step_continue_none {α : Type} (P : Request → α) (B : ArgState → Prop)
    (hURL : ∀ r t, P (setURL r t) = P r) (v : α) (t : Tok) (s' : Option ArgState)
    (r' r₁ : Request) (hp₁ : P r₁ = v)
    (hm : ((if isURLOrFragment t = true then .ok (none, setURL r₁ t)
            else .ok (none, r₁)) : Except String (Option ArgState × Request)) = .ok (s', r')) :
    P r' = v ∧ ∀ st, s' = some st → ¬ B st := by
  split at hm
  · cases hm
    exact ⟨(hURL r₁ t).trans hp₁, by simp⟩
  · cases hm
    exact ⟨hp₁, by simp⟩

/-- Preservation through the pending-state branch of processArgument (value
consumption). -/
theorem step_continue_some {α : Type} (P : Request → α) (B : ArgState → Prop)
    (hHV : ∀ t st r r', ¬ B st → handleValue t st r = .ok r' → P r' = P r)
    (v : α) (t : Tok) (s' : Option ArgState) (r' : Request) (st₀ : ArgState) (r₁ : Request)
    (hst : ¬ B st₀) (hp₁ : P r₁ = v)
    (hm : ((if t.truthy = true then
              match handleValue t st₀ r₁ with
              | .error e => .error e
              | .ok request => .ok (none, request)
            else .ok (none, r₁)) : Except String (Option ArgState × Request)) = .ok (s', r')) :
    P r' = v ∧ ∀ st, s' = some st → ¬ B st := by
  split at hm
  · rcases hv : handleValue t st₀ r₁ with e | r₂ <;> rw [hv] at hm
    · exact Except.noConfusion hm
    · cases hm
      exact ⟨(hHV t st₀ r₁ _ hst hv).trans hp₁, by simp⟩
  · cases hm
    exact ⟨hp₁, by simp⟩

/-- A single processArgument step preserves a request projection P when the
token is good: the bad states B are those whose handlers may change P, the
good categories are those whose immediate action preserves P and whose state
is not bad. -/
theorem step_preserve {α : Type} (P : Request → α) (B : ArgState → Prop)
    (GoodCat : FlagCat → Prop)
    (hHV : ∀ t st r r', ¬ B st → handleValue t st r = .ok r' → P r' = P r)
    (hFC : ∀ cat r, GoodCat cat → P (handleFlagCategory cat r).2 = P r)
    (hURL : ∀ r t, P (setURL r t) = P r)
    (hState : ∀ cat st, GoodCat cat → valueCatState cat = some st → ¬ B st)
    (v : α) :
    ∀ (s : Option ArgState) (r : Request) (t : Tok) (s' : Option ArgState) (r' : Request),
      GoodTok GoodCat t →
      (P r = v ∧ ∀ st, s = some st → ¬ B st) →
      processArgument t s r = .ok (s', r') →
      P r' = v ∧ ∀ st, s' = some st → ¬ B st := by
  intro s r t s' r' hg hinv h
  obtain ⟨hp, hstates⟩ := hinv
  cases t with
  | glob p =>
    have hfl : handleFlag (.glob p) r = (none, r) := rfl
    simp only [processArgument, hfl] at h
    cases s with
    | none => exact step_continue_none P B hURL v _ s' r' r hp h
    | some st₁ => exact step_continue_some P B hHV v _ s' r' st₁ r (hstates st₁ rfl) hp h
  | amp =>
    have hfl : handleFlag .amp r = (none, r) := rfl
    simp only [processArgument, hfl] at h
    cases s with
    | none => exact step_continue_none P B hURL v _ s' r' r hp h
    | some st₁ => exact step_continue_some P B hHV v _ s' r' st₁ r (hstates st₁ rfl) hp h
  | str ss =>
    rcases hcat : flagCategory ss with _ | cat
    · have hfl : handleFlag (.str ss) r = (none, r) := by simp [handleFlag, hcat]
      simp only [processArgument, hfl] at h
      cases s with
      | none => exact step_continue_none P B hURL v _ s' r' r hp h
      | some st₁ => exact step_continue_some P B hHV v _ s' r' st₁ r (hstates st₁ rfl) hp h
    · have hgood : GoodCat cat := hg cat hcat
      have hfl : handleFlag (.str ss) r = handleFlagCategory cat r := by
        simp [handleFlag, hcat]
      rcases hfc : handleFlagCategory cat r with ⟨sflag, r₁⟩
      have hs : sflag = valueCatState cat := by
        rw [← handleFlagCategory_state cat r, hfc]
      have hp₁ : P r₁ = v := by
        rw [← hp, ← hFC cat r hgood, hfc]
      simp only [processArgument, hfl, hfc] at h
      rcases hvs : valueCatState cat with _ | st₀
      · rw [hvs] at hs
        subst hs
        cases s with
        | none => exact step_continue_none P B hURL v _ s' r' r₁ hp₁ h
        | some st₁ => exact step_continue_some P B hHV v _ s' r' st₁ r₁ (hstates st₁ rfl) hp₁ h
      · rw [hvs] at hs
        subst hs
        have h' : (Except.ok (some st₀, r₁) : Except String (Option ArgState × Request)) =
            .ok (s', r') := h
        cases h'
        refine ⟨hp₁, fun st hst => ?_⟩
        injection hst with h2
        subst h2
        exact hState cat st₀ hgood hvs

end Curl

namespace Curl

/-- convertDataToQueryString leaves the auth descriptor unchanged. -/
theorem convert_auth (r r' : Request) (h : convertDataToQueryString r = .ok r') :
    r'.auth = r.auth := by
  unfold convertDataToQueryString at h
  split at h
  · exact Except.noConfusion h
  · cases h
    rfl

/-- postBuildProcessRequest leaves the auth descriptor unchanged. -/
theorem postBuild_auth (r r' : Request) (h : postBuildProcessRequest r = .ok r') :
    r'.auth = r.auth := by
  unfold postBuildProcessRequest at h
  split at h
  · exact Except.noConfusion h
  · rename_i req hreq
    cases h
    have hreqa : req.auth = r.auth := by
      split at hreq
      · rcases hc : convertDataToQueryString r with e | rc <;> rw [hc] at hreq
        · exact Except.noConfusion hreq
        · cases hreq
          exact convert_auth r rc hc
      · split at hreq
        · cases hreq
          split <;> rfl
        · cases hreq
          rfl
    rw [← hreqa]
    split <;> rfl

/-- normalizeRequest leaves the auth descriptor unchanged. -/
theorem normalize_auth (r₂ r : Request) (h : normalizeRequest r₂ = .ok r) :
    r.auth = r₂.auth := by
  obtain ⟨m, hm, rfl⟩ := normalize_ok_inv r₂ r h
  rfl

/-- The state of a value category other than user is not the user state. -/
theorem valueCatState_not_user (cat : FlagCat) (st : ArgState)
    (hgc : cat ≠ FlagCat.user) (hv : valueCatState cat = some st) : ¬(st = ArgState.user) := by
  cases cat <;>
    first
      | exact absurd rfl hgc
      | (injection hv with h2; subst h2; decide)
      | exact Option.noConfusion hv

end Curl

namespace Curl

/-! ## Claim C6 -/

/-- The auth descriptor setAuth builds from a -u value: username before the
first colon, password between the first and second colon. -/
def basicAuthOf (v : String) : Auth :=
  { mode := "basic",
    basic := { username := ((jsSplit ':' v)[0]?).getD "",
               password := ((jsSplit ':' v)[1]?).getD "" } }

/-- C6 counterexample: for -u with value alice:p:q the claim requires
password p:q (everything after the first colon); the code destructures
value.split over all colons and keeps only the second field, so the password
is p. -/
theorem c6_counterexample :
    parseCurlCommand [.str "-u", .str "alice:p:q"] =
      .ok { headers := none, method := some "get",
            auth := some { mode := "basic",
                           basic := { username := "alice", password := "p" } } } := rfl

/-- C6 amended: for every command containing -u or --user followed by a
truthy non-flag value, with no later user flag, the returned auth descriptor
has mode basic, username the part before the first colon, and password the
part between the first and second colon (empty when there is no colon);
anything after a second colon is dropped. -/
theorem c6_theorem (pre post : List Tok) (u v : String) (r : Request)
    (hu : u = "-u" ∨ u = "--user")
    (hv : flagCategory v = none) (hv0 : v ≠ "")
    (hpost : ∀ t ∈ post, GoodTok (fun cat => cat ≠ FlagCat.user) t)
    (h : parseCurlCommand (pre ++ Tok.str u :: Tok.str v :: post) = .ok r) :
    r.auth = some (basicAuthOf v) := by
  obtain ⟨r₁, r₂, hb, hpb, hn⟩ := parse_ok_decomp _ r h
  unfold buildRequest at hb
  rcases hf : foldSteps (pre ++ Tok.str u :: Tok.str v :: post) none initRequest
    with e | ⟨sEnd, rEnd⟩ <;> rw [hf] at hb
  · exact Except.noConfusion hb
  cases hb
  rw [foldSteps_append] at hf
  rcases hfp : foldSteps pre none initRequest with e | ⟨s₁, rp⟩ <;> rw [hfp] at hf
  · exact Except.noConfusion hf
  have hcatu : flagCategory u = some FlagCat.user := by
    rcases hu with h' | h' <;> subst h' <;> rfl
  have hstep1 : processArgument (.str u) s₁ rp = .ok (some ArgState.user, rp) := by
    simp [processArgument, handleFlag, hcatu, handleFlagCategory]
  have hstep2 : processArgument (.str v) (some ArgState.user) rp =
      .ok (none, setAuth rp (.str v)) := by
    simp [processArgument, handleFlag, hv, handleValue, Tok.truthy, hv0]
  simp only [foldSteps, hstep1, hstep2] at hf
  have hE : (setAuth rp (.str v)).auth = some (basicAuthOf v) := rfl
  have hinvEnd := foldSteps_inv
    (fun s req => req.auth = some (basicAuthOf v) ∧
      ∀ st, s = some st → ¬(st = ArgState.user))
    (GoodTok (fun cat => cat ≠ FlagCat.user))
    (fun s req t s' req' hg hinv hstep =>
      step_preserve Request.auth (fun st => st = ArgState.user) (fun cat => cat ≠ FlagCat.user)
        (fun t st rr rr' h1 h2 => handleValue_auth t st rr rr' h1 h2)
        (fun cat rr _ => handleFlagCategory_auth cat rr)
        (fun rr t => (setURL_fields rr t).1)
        valueCatState_not_user
        _ s req t s' req' hg hinv hstep)
    post none (setAuth rp (.str v)) sEnd r₁ hpost ⟨hE, by simp⟩ hf
  have h2 : r₂.auth = r₁.auth := postBuild_auth r₁ r₂ hpb
  have h3 : r.auth = r₂.auth := normalize_auth r₂ r hn
  rw [h3, h2, hinvEnd.1]

/-- C6 witness: the amended theorem on curl -u alice:p http://example.com. -/
theorem c6_witness :
    ({ headers := none, method := some "get", url := some "http://example.com",
       urlWithoutQuery := some "http://example.com",
       auth := some { mode := "basic",
                      basic := { username := "alice", password := "p" } } } : Request).auth =
      some (basicAuthOf "alice:p") :=
  c6_theorem [Tok.str "curl"] [Tok.str "http://example.com"] "-u" "alice:p" _
    (Or.inl rfl) rfl (by decide)
    (fun t ht => by
      rcases List.mem_singleton.mp ht with rfl
      exact fun cat hcat => Option.noConfusion hcat)
    rfl

end Curl

namespace Curl

/-- Lowercasing after uppercasing a character equals lowercasing it. -/
theorem char_toLower_toUpper (c : Char) : Char.toLower (Char.toUpper c) = Char.toLower c := by
  unfold Char.toUpper
  show Char.toLower (if c.toNat ≥ 97 ∧ c.toNat ≤ 122 then Char.ofNat (c.toNat - 32) else c)
      = Char.toLower c
  by_cases h : c.toNat ≥ 97 ∧ c.toNat ≤ 122
  · rw [if_pos h]
    have hv : (c.toNat - 32).isValidChar := by
      left
      have := h.2
      omega
    have hval : (Char.ofNat (c.toNat - 32)).toNat = c.toNat - 32 := char_toNat_ofNat _ hv
    have hup : (Char.ofNat (c.toNat - 32)).toNat ≥ 65 ∧ (Char.ofNat (c.toNat - 32)).toNat ≤ 90 := by
      rw [hval]
      omega
    have hnotup : ¬(c.toNat ≥ 65 ∧ c.toNat ≤ 90) := by omega
    unfold Char.toLower
    show (if (Char.ofNat (c.toNat - 32)).toNat ≥ 65 ∧ (Char.ofNat (c.toNat - 32)).toNat ≤ 90
          then Char.ofNat ((Char.ofNat (c.toNat - 32)).toNat + 32)
          else Char.ofNat (c.toNat - 32)) = if c.toNat ≥ 65 ∧ c.toNat ≤ 90 then Char.ofNat (c.toNat + 32) else c
    rw [if_pos hup, if_neg hnotup, hval]
    have : c.toNat - 32 + 32 = c.toNat := by omega
    rw [this, Char.ofNat_toNat]
  · rw [if_neg h]

/-- jsToLowerCase absorbs a preceding jsToUpperCase. -/
theorem jsToLowerCase_jsToUpperCase (s : String) :
    jsToLowerCase (jsToUpperCase s) = jsToLowerCase s := by
  apply String.ext
  show (s.data.map Char.toUpper).map Char.toLower = s.data.map Char.toLower
  rw [List.map_map]
  have hcomp : Char.toLower ∘ Char.toUpper = Char.toLower := by
    funext c
    exact char_toLower_toUpper c
  rw [hcomp]

/-- jsToUpperCase of a nonempty string is nonempty. -/
theorem jsToUpperCase_ne_empty (s : String) (h : s ≠ "") : jsToUpperCase s ≠ "" := by
  intro hc
  apply h
  apply String.ext
  have : (jsToUpperCase s).data = s.data.map Char.toUpper := rfl
  rw [hc] at this
  exact (List.map_eq_nil_iff).mp this.symm

end Curl

namespace Curl

/-- convertDataToQueryString leaves the method unchanged. -/
theorem convert_method (r r' : Request) (h : convertDataToQueryString r = .ok r') :
    r'.method = r.method := by
  unfold convertDataToQueryString at h
  split at h
  · exact Except.noConfusion h
  · cases h
    rfl

/-- postBuildProcessRequest keeps a truthy method, unless it is HEAD together
with truthy data. -/
theorem postBuild_method_preserve (r r' : Request) (h : postBuildProcessRequest r = .ok r')
    (ht : jsTruthy r.method = true)
    (hh : r.method = some "HEAD" → jsTruthy r.data = false) :
    r'.method = r.method := by
  unfold postBuildProcessRequest at h
  split at h
  · exact Except.noConfusion h
  · rename_i req hreq
    cases h
    have hreqm : req.method = r.method := by
      split at hreq
      · rcases hc : convertDataToQueryString r with e | rc <;> rw [hc] at hreq
        · exact Except.noConfusion hreq
        · cases hreq
          exact convert_method r rc hc
      · split at hreq
        · rename_i hcond
          cases hreq
          have h1 : (!(jsTruthy r.method)) = false := by
            rw [ht]
            rfl
          have h2 : decide (r.method = some "HEAD") = false := by
            rw [decide_eq_false_iff_not]
            intro hhead
            rw [hh hhead] at hcond
            exact Bool.false_ne_true hcond
          rw [h1, h2]
          rfl
        · cases hreq
          rfl
    have hfalse : (!(jsTruthy req.method)) = false := by
      rw [hreqm, ht]
      rfl
    rw [hfalse]
    simp only [Bool.false_eq_true, if_false]
    exact hreqm

end Curl

namespace Curl

/-- A token whose flag lookup fails is good for every category predicate. -/
theorem goodTok_of_none (GC : FlagCat → Prop) (s : String) (h : flagCategory s = none) :
    GoodTok GC (.str s) :=
  fun cat hcat => absurd hcat (by rw [h]; exact fun hc => Option.noConfusion hc)

/-- A flag token of a good category is a good token. -/
theorem goodTok_of_cat (GC : FlagCat → Prop) (s : String) (c : FlagCat)
    (h : flagCategory s = some c) (hp : GC c) : GoodTok GC (.str s) := by
  intro cat hcat
  rw [h] at hcat
  injection hcat with e
  subst e
  exact hp

/-- States of categories outside method, head, form and json are not
method-changing states. -/
theorem valueCatState_method_safe (cat : FlagCat) (st : ArgState)
    (hgc : cat ≠ FlagCat.method ∧ cat ≠ FlagCat.head ∧ cat ≠ FlagCat.form ∧ cat ≠ FlagCat.json)
    (hv : valueCatState cat = some st) :
    ¬(st = ArgState.method ∨ st = ArgState.json ∨ st = ArgState.form) := by
  cases cat <;>
    first
      | exact absurd rfl hgc.1
      | exact absurd rfl hgc.2.1
      | exact absurd rfl hgc.2.2.1
      | exact absurd rfl hgc.2.2.2
      | exact Option.noConfusion hv
      | (injection hv with h2; subst h2; decide)

/-- States of categories outside the data family and json are not
data-changing states. -/
theorem valueCatState_data_safe (cat : FlagCat) (st : ArgState)
    (hgc : cat ≠ FlagCat.data ∧ cat ≠ FlagCat.dataRaw ∧ cat ≠ FlagCat.dataBinary ∧
      cat ≠ FlagCat.json)
    (hv : valueCatState cat = some st) :
    ¬(st = ArgState.data ∨ st = ArgState.json) := by
  cases cat <;>
    first
      | exact absurd rfl hgc.1
      | exact absurd rfl hgc.2.1
      | exact absurd rfl hgc.2.2.1
      | exact absurd rfl hgc.2.2.2
      | exact Option.noConfusion hv
      | (injection hv with h2; subst h2; decide)

end Curl

namespace Curl

/-! ## Claim C5 -/

/-- C5 counterexample: the claim says -X PUT fixes the method regardless of
the position of the flag among the other arguments; with a form flag after
it (curl -X PUT -F a=b http://example.com) setFormData overrides the method
to POST, so the result is post, not put. -/
theorem c5_counterexample :
    parseCurlCommand [.str "-X", .str "PUT", .str "-F", .str "a=b",
        .str "http://example.com"] =
      .ok { headers := none, method := some "post", url := some "http://example.com",
            urlWithoutQuery := some "http://example.com",
            multipartUploads :=
              some [{ name := "a", value := "b", type := "text", enabled := true }] } ∧
    some "post" ≠ some (jsToLowerCase "PUT") := ⟨rfl, by decide⟩

/-- C5 amended: -X m (or --request m) with a truthy non-flag method token m
yields method m case-normalized, at any position, provided the other
arguments contain no head flag, no form flag, no json flag and no other method
flag,
and, when m uppercases to HEAD, no data flag either (data would turn HEAD
into POST). -/
theorem c5_theorem (pre post : List Tok) (x m : String) (r : Request)
    (hx : x = "-X" ∨ x = "--request")
    (hm : flagCategory m = none) (hm0 : m ≠ "")
    (hsafe : ∀ t ∈ pre ++ post,
      GoodTok (fun cat => cat ≠ FlagCat.method ∧ cat ≠ FlagCat.head ∧
        cat ≠ FlagCat.form ∧ cat ≠ FlagCat.json) t)
    (hdata : jsToUpperCase m = "HEAD" → ∀ t ∈ pre ++ post,
      GoodTok (fun cat => cat ≠ FlagCat.data ∧ cat ≠ FlagCat.dataRaw ∧
        cat ≠ FlagCat.dataBinary ∧ cat ≠ FlagCat.json) t)
    (h : parseCurlCommand (pre ++ Tok.str x :: Tok.str m :: post) = .ok r) :
    r.method = some (jsToLowerCase m) := by
  obtain ⟨r₁, r₂, hb, hpb, hn⟩ := parse_ok_decomp _ r h
  unfold buildRequest at hb
  rcases hf : foldSteps (pre ++ Tok.str x :: Tok.str m :: post) none initRequest
    with e | ⟨sEnd, rEnd⟩ <;> rw [hf] at hb
  · exact Except.noConfusion hb
  cases hb
  rw [foldSteps_append] at hf
  rcases hfp : foldSteps pre none initRequest with e | ⟨s₁, rp⟩ <;> rw [hfp] at hf
  · exact Except.noConfusion hf
  have hcatx : flagCategory x = some FlagCat.method := by
    rcases hx with h' | h' <;> subst h' <;> rfl
  have hstep1 : processArgument (.str x) s₁ rp = .ok (some ArgState.method, rp) := by
    simp [processArgument, handleFlag, hcatx, handleFlagCategory]
  have hstep2 : processArgument (.str m) (some ArgState.method) rp =
      .ok (none, { rp with method := some (jsToUpperCase m) }) := by
    simp [processArgument, handleFlag, hm, handleValue, setMethod, Tok.truthy, hm0]
  simp only [foldSteps, hstep1, hstep2] at hf
  have hmethEnd := foldSteps_inv
    (fun s req => req.method = some (jsToUpperCase m) ∧
      ∀ st, s = some st → ¬(st = ArgState.method ∨ st = ArgState.json ∨ st = ArgState.form))
    (GoodTok (fun cat => cat ≠ FlagCat.method ∧ cat ≠ FlagCat.head ∧
      cat ≠ FlagCat.form ∧ cat ≠ FlagCat.json))
    (fun s req t s' req' hg hinv hstep =>
      step_preserve Request.method
        (fun st => st = ArgState.method ∨ st = ArgState.json ∨ st = ArgState.form)
        (fun cat => cat ≠ FlagCat.method ∧ cat ≠ FlagCat.head ∧
          cat ≠ FlagCat.form ∧ cat ≠ FlagCat.json)
        (fun t st rr rr' hB h2 => handleValue_method t st rr rr' (fun e => hB (Or.inl e))
          (fun e => hB (Or.inr (Or.inl e))) (fun e => hB (Or.inr (Or.inr e))) h2)
        (fun cat rr hgc => handleFlagCategory_method cat rr hgc.2.1)
        (fun rr t => (setURL_fields rr t).2.1)
        valueCatState_method_safe
        _ s req t s' req' hg hinv hstep)
    post none { rp with method := some (jsToUpperCase m) } sEnd r₁
    (fun t ht => hsafe t (List.mem_append_right pre ht)) ⟨rfl, by simp⟩ hf
  have hmeth1 : r₁.method = some (jsToUpperCase m) := hmethEnd.1
  have htruthy : jsTruthy r₁.method = true := by
    rw [hmeth1]
    simp [jsTruthy, jsToUpperCase_ne_empty m hm0]
  have hhh : r₁.method = some "HEAD" → jsTruthy r₁.data = false := by
    intro hhd
    rw [hmeth1] at hhd
    injection hhd with hhd'
    have hsafeD := hdata hhd'
    have hdpre := foldSteps_inv
      (fun s req => req.data = none ∧
        ∀ st, s = some st → ¬(st = ArgState.data ∨ st = ArgState.json))
      (GoodTok (fun cat => cat ≠ FlagCat.data ∧ cat ≠ FlagCat.dataRaw ∧
        cat ≠ FlagCat.dataBinary ∧ cat ≠ FlagCat.json))
      (fun s req t s' req' hg hinv hstep =>
        step_preserve Request.data
          (fun st => st = ArgState.data ∨ st = ArgState.json)
          (fun cat => cat ≠ FlagCat.data ∧ cat ≠ FlagCat.dataRaw ∧
            cat ≠ FlagCat.dataBinary ∧ cat ≠ FlagCat.json)
          (fun t st rr rr' hB h2 => handleValue_data t st rr rr' (fun e => hB (Or.inl e))
            (fun e => hB (Or.inr e)) h2)
          (fun cat rr _ => handleFlagCategory_data cat rr)
          (fun rr t => (setURL_fields rr t).2.2)
          valueCatState_data_safe
          _ s req t s' req' hg hinv hstep)
      pre none initRequest s₁ rp
      (fun t ht => hsafeD t (List.mem_append_left post ht)) ⟨rfl, by simp⟩ hfp
    have hdpost := foldSteps_inv
      (fun s req => req.data = none ∧
        ∀ st, s = some st → ¬(st = ArgState.data ∨ st = ArgState.json))
      (GoodTok (fun cat => cat ≠ FlagCat.data ∧ cat ≠ FlagCat.dataRaw ∧
        cat ≠ FlagCat.dataBinary ∧ cat ≠ FlagCat.json))
      (fun s req t s' req' hg hinv hstep =>
        step_preserve Request.data
          (fun st => st = ArgState.data ∨ st = ArgState.json)
          (fun cat => cat ≠ FlagCat.data ∧ cat ≠ FlagCat.dataRaw ∧
            cat ≠ FlagCat.dataBinary ∧ cat ≠ FlagCat.json)
          (fun t st rr rr' hB h2 => handleValue_data t st rr rr' (fun e => hB (Or.inl e))
            (fun e => hB (Or.inr e)) h2)
          (fun cat rr _ => handleFlagCategory_data cat rr)
          (fun rr t => (setURL_fields rr t).2.2)
          valueCatState_data_safe
          _ s req t s' req' hg hinv hstep)
      post none { rp with method := some (jsToUpperCase m) } sEnd r₁
      (fun t ht => hsafeD t (List.mem_append_right pre ht))
      ⟨hdpre.1, by simp⟩ hf
    rw [hdpost.1]
    rfl
  have hpm : r₂.method = r₁.method := postBuild_method_preserve r₁ r₂ hpb htruthy hhh
  obtain ⟨mm, hmm, rfl⟩ := normalize_ok_inv r₂ r hn
  rw [hpm, hmeth1] at hmm
  injection hmm with hmm'
  show some (jsToLowerCase mm) = some (jsToLowerCase m)
  rw [← hmm', jsToLowerCase_jsToUpperCase]

/-- C5 witness: the amended theorem on
curl -X PuT -d a=b http://example.com, whose method is put at any position. -/
theorem c5_witness :
    ({ headers := none, method := some "put", url := some "http://example.com",
       urlWithoutQuery := some "http://example.com", data := some "a=b" } : Request).method =
      some (jsToLowerCase "PuT") :=
  c5_theorem [Tok.str "curl"] [Tok.str "-d", Tok.str "a=b", Tok.str "http://example.com"]
    "-X" "PuT" _ (Or.inl rfl) rfl (by decide)
    (fun t ht => by
      simp only [List.cons_append, List.nil_append, List.mem_cons,
        List.not_mem_nil, or_false] at ht
      rcases ht with rfl | rfl | rfl | rfl
      · exact goodTok_of_none _ "curl" rfl
      · exact goodTok_of_cat _ "-d" FlagCat.data rfl (by decide)
      · exact goodTok_of_none _ "a=b" rfl
      · exact goodTok_of_none _ "http://example.com" rfl)
    (fun hh => absurd hh (by decide))
    rfl

end Curl

namespace Curl

/-- splitFirstAux decomposes the list at the separator. -/
theorem splitFirstAux_append (c : Char) (l p1 p2 : List Char)
    (h : splitFirstAux c l = some (p1, p2)) : l = p1 ++ c :: p2 := by
  induction l generalizing p1 p2 with
  | nil => exact Option.noConfusion h
  | cons x xs ih =>
    unfold splitFirstAux at h
    split at h
    · rename_i hx
      cases h
      rw [hx]
      rfl
    · rcases hrec : splitFirstAux c xs with _ | ⟨q1, q2⟩ <;> rw [hrec] at h
      · exact Option.noConfusion h
      · simp only [Option.map_some'] at h
        cases h
        rw [List.cons_append]
        congr 1
        exact ih _ _ hrec

/-- The url format of the url parse is the original string. -/
theorem urlFormat_urlParse (s : String) : urlFormat (urlParse s) = s := by
  unfold urlParse urlFormat splitFirst
  rcases hsp : splitFirstAux '?' s.data with _ | ⟨p1, p2⟩
  · simp [hsp]
  · simp only [hsp, Option.map_some']
    apply String.ext
    have hqd : ("?" : String).data = ['?'] := rfl
    simp [String.data_append, hqd, splitFirstAux_append '?' s.data p1 p2 hsp]

/-- The url with the data appended to its query string by
convertDataToQueryString: a question mark is added when the url has none, an
ampersand when it does not already end with one, and the data follows. -/
def queryAugmentedUrl (u d : String) : String :=
  (if !(jsIncludes '?' u) then u ++ "?"
   else if !(jsEndsWithChar '&' u) then u ++ "&" else u) ++ d

/-- convertDataToQueryString on a defined url and data yields the augmented
url and the parsed query. -/
theorem convert_spec (r : Request) (u d : String) (hu : r.url = some u)
    (hd : r.data = some d) :
    convertDataToQueryString r =
      .ok { r with url := some (urlFormat (urlParse (queryAugmentedUrl u d))),
                   query := some ((qsParse (urlParse (queryAugmentedUrl u d)).query).map
                     (fun p => (p.1, p.2.getD ""))) } := by
  simp [convertDataToQueryString, hu, hd, queryAugmentedUrl]

/-- After the query branch of postBuildProcessRequest, the url and query come
from convertDataToQueryString and the data is deleted. -/
theorem postBuild_query_fields (r r₂ : Request) (hp : postBuildProcessRequest r = .ok r₂)
    (hq : r.isQuery = true) (hdt : jsTruthy r.data = true) (rc : Request)
    (hcv : convertDataToQueryString r = .ok rc) :
    r₂.url = rc.url ∧ r₂.query = rc.query ∧ r₂.data = none := by
  unfold postBuildProcessRequest at hp
  split at hp
  · exact Except.noConfusion hp
  · rename_i req hreq
    cases hp
    split at hreq
    · rw [hcv] at hreq
      cases hreq
      refine ⟨?_, ?_, ?_⟩ <;> (split <;> rfl)
    · rename_i hcondf
      exact absurd (by rw [hq, hdt]; rfl) hcondf

/-! ## Claim C7 -/

/-- C7: when the query flag is set together with truthy data and a defined
url, the returned request carries the data as query parameters: the url
becomes the original url with the data appended to its query string, the
parsed key and value pairs (null values replaced by empty strings) appear in
the query field, and the data field is gone. -/
theorem c7_theorem (toks : List Tok) (r : Request) (d u : String)
    (hb : buildRequest toks = .ok r) (hq : r.isQuery = true) (hd : r.data = some d)
    (hd0 : d ≠ "") (hu : r.url = some u) :
    ∃ r', parseCurlCommand toks = .ok r' ∧
      r'.url = some (queryAugmentedUrl u d) ∧
      r'.query = some ((qsParse (urlParse (queryAugmentedUrl u d)).query).map
        (fun p => (p.1, p.2.getD ""))) ∧
      r'.data = none := by
  have hdt : jsTruthy r.data = true := by
    rw [hd]
    simp [jsTruthy, hd0]
  have hnotbad : ¬(r.isQuery = true ∧ jsTruthy r.data = true ∧ r.url = none) := by
    rintro ⟨-, -, hun⟩
    rw [hu] at hun
    exact Option.noConfusion hun
  obtain ⟨r₂, hp⟩ := postBuild_ok r hnotbad
  have hcv := convert_spec r u d hu hd
  obtain ⟨hu2, hq2, hd2⟩ := postBuild_query_fields r r₂ hp hq hdt _ hcv
  obtain ⟨mm, hmm⟩ := postBuild_method r r₂ hp
  have hn := normalize_ok r₂ mm hmm
  refine ⟨_, by simp only [parseCurlCommand, hb, hp]; exact hn, ?_, ?_, ?_⟩
  · show r₂.url = some (queryAugmentedUrl u d)
    rw [hu2]
    show some (urlFormat (urlParse (queryAugmentedUrl u d))) = some (queryAugmentedUrl u d)
    rw [urlFormat_urlParse]
  · show r₂.query = _
    rw [hq2]
  · exact hd2

/-- C7 witness: the theorem on curl -G -d a=1&b http://x.com/p, whose query
becomes a=1 and b with the null value of b replaced by the empty string. -/
theorem c7_witness :
    ∃ r', parseCurlCommand [Tok.str "-G", Tok.str "-d", Tok.str "a=1&b",
        Tok.str "http://x.com/p"] = .ok r' ∧
      r'.url = some (queryAugmentedUrl "http://x.com/p" "a=1&b") ∧
      r'.query = some ((qsParse (urlParse (queryAugmentedUrl "http://x.com/p" "a=1&b")).query).map
        (fun p => (p.1, p.2.getD ""))) ∧
      r'.data = none :=
  c7_theorem [Tok.str "-G", Tok.str "-d", Tok.str "a=1&b", Tok.str "http://x.com/p"]
    { headers := some [], url := some "http://x.com/p",
      urlWithoutQuery := some "http://x.com/p", data := some "a=1&b", isQuery := true }
    "a=1&b" "http://x.com/p" rfl rfl rfl (by decide) rfl

end Curl

namespace Curl

/-- The JS data accumulation step of setData as a pure function. -/
def jsAppendData (o : Option String) (v : String) : String :=
  if jsTruthy o then o.getD "" ++ "&" ++ v else v

/-- Appending to a nonempty string stays nonempty. -/
theorem append_ne_empty (a b : String) (h : a ≠ "") : a ++ b ≠ "" := by
  intro hc
  apply h
  apply String.ext
  have : (a ++ b).data = a.data ++ b.data := String.data_append a b
  rw [hc] at this
  exact (List.append_eq_nil.mp this.symm).1

/-- joinAmp of a two-head list merges into the head. -/
theorem joinAmp_cons_cons (a v : String) (vs : List String) :
    joinAmp ((a ++ "&" ++ v) :: vs) = joinAmp (a :: v :: vs) := by
  cases vs with
  | nil => rfl
  | cons w ws =>
    show (a ++ "&" ++ v) ++ "&" ++ joinAmp (w :: ws) = a ++ "&" ++ (v ++ "&" ++ joinAmp (w :: ws))
    simp [String.append_assoc]

/-- The setData fold over nonempty accumulated data produces the
ampersand-joined values. -/
theorem foldl_jsAppendData (vs : List String) : ∀ (a : String), a ≠ "" →
    List.foldl (fun acc v => some (jsAppendData acc v)) (some a) vs =
      some (joinAmp (a :: vs)) := by
  induction vs with
  | nil => intro a _; rfl
  | cons v rest ih =>
    intro a ha
    show List.foldl _ (some (jsAppendData (some a) v)) rest = _
    have hja : jsAppendData (some a) v = a ++ "&" ++ v := by
      simp [jsAppendData, jsTruthy, ha]
    rw [hja, ih (a ++ "&" ++ v) (append_ne_empty _ _ (append_ne_empty _ _ ha)),
      joinAmp_cons_cons]

/-- Looking up the key just set returns the new value. -/
theorem lookupAssoc_setAssoc (l : List (String × Option String)) (k : String)
    (v : Option String) : lookupAssoc (setAssoc l k v) k = some v := by
  induction l with
  | nil => simp [setAssoc, lookupAssoc]
  | cons p t ih =>
    unfold setAssoc
    split
    · simp [lookupAssoc]
    · rename_i hk
      simp only [lookupAssoc, hk, if_false]
      exact ih

/-- A data-family flag followed by a truthy non-flag value: the pair is
consumed, the state returns to null and the data accumulates with setData. -/
theorem data_pairs_fold (dvs : List (String × String)) : ∀ (req : Request),
    (∀ p ∈ dvs,
      (flagCategory p.1 = some FlagCat.data ∨ flagCategory p.1 = some FlagCat.dataRaw ∨
        flagCategory p.1 = some FlagCat.dataBinary) ∧
      flagCategory p.2 = none ∧ p.2 ≠ "") →
    ∃ req', foldSteps ((dvs.map (fun p => [Tok.str p.1, Tok.str p.2])).join) none req =
        .ok (none, req') ∧
      req'.data = List.foldl (fun acc v => some (jsAppendData acc v)) req.data
        (dvs.map Prod.snd) := by
  induction dvs with
  | nil => exact fun req _ => ⟨req, rfl, rfl⟩
  | cons p rest ih =>
    intro req hconds
    obtain ⟨hflag, hval, hval0⟩ := hconds p (List.mem_cons_self p rest)
    rcases p with ⟨f, v⟩
    have hstep2gen : ∀ req₁ : Request, processArgument (.str v) (some ArgState.data) req₁ =
        .ok (none, setData req₁ (.str v)) := by
      intro req₁
      simp [processArgument, handleFlag, hval, handleValue, Tok.truthy, hval0]
    have hdataeq : ∀ req₁ : Request, (setData req₁ (.str v)).data =
        some (jsAppendData req₁.data v) := fun req₁ => rfl
    rcases hflag with hcf | hcf | hcf
    all_goals {
      first
        | (have hstep1 : processArgument (.str f) none req = .ok (some ArgState.data, req) := by
             simp [processArgument, handleFlag, hcf, handleFlagCategory]
           obtain ⟨req', hfold, hdata⟩ := ih (setData req (.str v))
             (fun q hq => hconds q (List.mem_cons_of_mem _ hq))
           refine ⟨req', ?_, ?_⟩
           · simp only [List.map_cons, List.join, List.cons_append, List.nil_append,
               foldSteps, hstep1, hstep2gen req]
             exact hfold
           · rw [hdata, hdataeq req]
             rfl)
        | (have hstep1 : processArgument (.str f) none req =
               .ok (some ArgState.data, { req with isDataRaw := true }) := by
             simp [processArgument, handleFlag, hcf, handleFlagCategory]
           obtain ⟨req', hfold, hdata⟩ := ih (setData { req with isDataRaw := true } (.str v))
             (fun q hq => hconds q (List.mem_cons_of_mem _ hq))
           refine ⟨req', ?_, ?_⟩
           · simp only [List.map_cons, List.join, List.cons_append, List.nil_append,
               foldSteps, hstep1, hstep2gen { req with isDataRaw := true }]
             exact hfold
           · rw [hdata, hdataeq { req with isDataRaw := true }]
             rfl)
        | (have hstep1 : processArgument (.str f) none req =
               .ok (some ArgState.data, { req with isDataBinary := true }) := by
             simp [processArgument, handleFlag, hcf, handleFlagCategory]
           obtain ⟨req', hfold, hdata⟩ := ih (setData { req with isDataBinary := true } (.str v))
             (fun q hq => hconds q (List.mem_cons_of_mem _ hq))
           refine ⟨req', ?_, ?_⟩
           · simp only [List.map_cons, List.join, List.cons_append, List.nil_append,
               foldSteps, hstep1, hstep2gen { req with isDataBinary := true }]
             exact hfold
           · rw [hdata, hdataeq { req with isDataBinary := true }]
             rfl)
    }

end Curl

namespace Curl

/-! ## Claim C10 -/

/-- C10 counterexample: for the data flags -d a -d '' -d c the claim requires
the accumulated data a&&c (values joined by ampersands in flag order); the
empty value is falsy and skipped by the consumption guard, so the code
accumulates a&c. -/
theorem c10_counterexample :
    parseCurlCommand [.str "-d", .str "a", .str "-d", .str "", .str "-d", .str "c"] =
      .ok { headers := none, method := some "post", data := some "a&c" } ∧
    some "a&c" ≠ some ("a" ++ "&" ++ "" ++ "&" ++ "c") := ⟨rfl, by decide⟩

/-- C10 amended: a sequence of data flags with truthy non-flag values
accumulates the values joined by ampersands in flag order (empty-string
values would be skipped, so they are excluded); a --json value instead
replaces any previously accumulated data and sets the Content-Type header to
application/json. -/
theorem c10_theorem :
    (∀ (v : String) (rest : List (String × String)),
      (∀ p ∈ (v :: rest.map Prod.snd), p ≠ "") →
      ∀ (f : String) (dvs : List (String × String)), dvs = (⟨f, v⟩ :: rest) →
      (∀ p ∈ dvs,
        (flagCategory p.1 = some FlagCat.data ∨ flagCategory p.1 = some FlagCat.dataRaw ∨
          flagCategory p.1 = some FlagCat.dataBinary) ∧ flagCategory p.2 = none ∧ p.2 ≠ "") →
      ∃ r, buildRequest ((dvs.map (fun p => [Tok.str p.1, Tok.str p.2])).join) = .ok r ∧
        r.data = some (joinAmp (dvs.map Prod.snd))) ∧
    (∀ (toks : List Tok) (s : Option ArgState) (req : Request) (j : String),
      foldSteps toks none initRequest = .ok (s, req) →
      flagCategory j = none → j ≠ "" →
      ∃ r, buildRequest (toks ++ [Tok.str "--json", Tok.str j]) = .ok r ∧
        r.data = some j ∧
        lookupAssoc (r.headers.getD []) "Content-Type" = some (some "application/json")) := by
  constructor
  · intro v rest hne f dvs hdvs hconds
    subst hdvs
    obtain ⟨req', hfold, hdata⟩ := data_pairs_fold (⟨f, v⟩ :: rest) initRequest hconds
    refine ⟨req', ?_, ?_⟩
    · simp only [buildRequest, hfold]
    · rw [hdata]
      show List.foldl _ (some (jsAppendData none v)) (rest.map Prod.snd) = _
      have hj : jsAppendData none v = v := rfl
      rw [hj, foldl_jsAppendData (rest.map Prod.snd) v (hne v (List.mem_cons_self v _))]
      rfl
  · intro toks s req j hf hj hj0
    have hstepJson : processArgument (.str "--json") s req = .ok (some ArgState.json, req) := by
      simp [processArgument, handleFlag, flagCategory, handleFlagCategory]
    have hstepVal : processArgument (.str j) (some ArgState.json) req =
        .ok (none, setJsonData req (.str j)) := by
      simp [processArgument, handleFlag, hj, handleValue, Tok.truthy, hj0]
    refine ⟨setJsonData req (.str j), ?_, rfl, ?_⟩
    · rw [buildRequest, foldSteps_append, hf]
      simp only [foldSteps, hstepJson, hstepVal]
    · show lookupAssoc ((setJsonData req (.str j)).headers.getD []) "Content-Type" = _
      have : (setJsonData req (.str j)).headers =
          some (setAssoc ((if req.method = some "GET" || req.method = some "HEAD" then
            { req with method := some "POST" } else req).headers.getD [])
            "Content-Type" (some "application/json")) := rfl
      rw [this]
      exact lookupAssoc_setAssoc _ _ _

/-- C10 witness: curl -d a --data-raw b accumulates a&b, and appending
 --json 1 to curl -d x replaces the data with 1 and sets the json
Content-Type. -/
theorem c10_witness :
    (∃ r, buildRequest (([(⟨"-d", "a"⟩ : String × String),
        ⟨"--data-raw", "b"⟩].map (fun p => [Tok.str p.1, Tok.str p.2])).join) = .ok r ∧
      r.data = some (joinAmp ([(⟨"-d", "a"⟩ : String × String),
        ⟨"--data-raw", "b"⟩].map Prod.snd))) ∧
    (∃ r, buildRequest ([Tok.str "-d", Tok.str "x"] ++ [Tok.str "--json", Tok.str "1"]) =
        .ok r ∧ r.data = some "1" ∧
      lookupAssoc (r.headers.getD []) "Content-Type" = some (some "application/json")) :=
  ⟨c10_theorem.1 "a" [⟨"--data-raw", "b"⟩] (by decide) "-d" _ rfl (by decide),
   c10_theorem.2 [Tok.str "-d", Tok.str "x"] none
     { data := some "x" } "1" rfl rfl (by decide)⟩

end Curl
